import Mathlib

/-!
Shallow embedding of the session/tag persistence and aggregation module of
the Focus Raycast extension (the Session Service of `src/sessionStorage.ts`
and its unnamed variant of the same module), together with theorems checking
the specification's claims about it.

Times (`startTime`, `endTime`, the reconciliation clock `now`) are epoch
milliseconds modelled as `Int`; `duration` is in seconds, modelled as
`Option Int` (`none` is an absent field).  The persisted storage layer is
modelled as explicit state passing: every operation takes the stored
collection and returns the collection it saves (or an `Except` error when
the source throws before saving).
-/

namespace FocusMetrics

/-- Session status: the `status` field of a `Session` record,
the union type `"running" | "completed"` of `types.ts`. -/
inductive Status where
  | running
  | completed
deriving DecidableEq, Repr

/-- A session record, the `Session` interface of `types.ts`.  Optional
fields are `Option`s. -/
structure Session where
  id : String
  tag : String
  goal : Option String
  categories : String
  duration : Option Int
  mode : String
  status : Status
  startTime : Int
  endTime : Option Int
deriving DecidableEq, Repr

/-- Derived per-tag statistics, the `SessionStats` interface of `types.ts`. -/
structure SessionStats where
  tag : String
  totalDuration : Int
  count : Nat
  sessions : List Session
deriving DecidableEq, Repr

/-- The two persisted collections, stored under the keys
`"focus-sessions"` and `"focus-tags"`. -/
structure Store where
  sessions : List Session
  tags : List String
deriving DecidableEq, Repr

/-- A `Partial<Session>` update object.  An outer `none` means the key is
absent from the object; for the `Session` fields that are themselves
optional, a present key may still carry `undefined`, hence the nested
`Option`. -/
structure SessionUpdates where
  id : Option String := none
  tag : Option String := none
  goal : Option (Option String) := none
  categories : Option String := none
  duration : Option (Option Int) := none
  mode : Option String := none
  status : Option Status := none
  startTime : Option Int := none
  endTime : Option (Option Int) := none
deriving DecidableEq, Repr

/-- Object-spread merge of an update over a record, as in
`sessions[sessionIndex] = ... the spread of session then updates ...`
(`sessionStorage.ts`, line 110): a key present in `updates` overwrites the
field, an absent key leaves it. -/
def mergeSession (s : Session) (u : SessionUpdates) : Session :=
  { id := u.id.getD s.id
    tag := u.tag.getD s.tag
    goal := u.goal.getD s.goal
    categories := u.categories.getD s.categories
    duration := u.duration.getD s.duration
    mode := u.mode.getD s.mode
    status := u.status.getD s.status
    startTime := u.startTime.getD s.startTime
    endTime := u.endTime.getD s.endTime }

/-- `addSession` (`sessionStorage.ts`, lines 90-94): pushes the new record
onto the loaded sequence and saves it.  No uniqueness check on `id`. -/
def addSession (s : Session) (sessions : List Session) : List Session :=
  sessions ++ [s]

/-- `updateSession` (`sessionStorage.ts`, lines 99-112): `findIndex`
locates the first record whose `id` matches; if none exists the function
throws before saving; otherwise the record at that index is replaced by the
spread merge.  The recursion mirrors findIndex-then-assign-at-index. -/
def updateSession (sessionId : String) (u : SessionUpdates) :
    List Session → Except String (List Session)
  | [] => .error ("Session with id " ++ sessionId ++ " not found")
  | s :: rest =>
    if s.id = sessionId then .ok (mergeSession s u :: rest)
    else (updateSession sessionId u rest).map (fun l => s :: l)

/-- The effect of one `updateSession` call on the stored collection: when
the call throws, `saveSessions` is never reached, so the stored value is
unchanged. -/
def updateSessionStored (sessionId : String) (u : SessionUpdates)
    (stored : List Session) : List Session :=
  match updateSession sessionId u stored with
  | .ok l => l
  | .error _ => stored

/-- `removeSession` (`sessionStorage.ts`, lines 117-121): filters out every
record whose `id` matches and saves the rest. -/
def removeSession (sessionId : String) (sessions : List Session) :
    List Session :=
  sessions.filter (fun s => s.id ≠ sessionId)

/-- `markSessionCompleted` (`sessionStorage.ts`, lines 156-163):
`updateSession` with the update object carrying `status: "completed"` and
`endTime: Date.now()`. -/
def markSessionCompleted (sessionId : String) (now : Int)
    (sessions : List Session) : Except String (List Session) :=
  updateSession sessionId
    { status := some .completed, endTime := some (some now) } sessions

/-- Stored-collection effect of `markSessionCompleted` (unchanged when the
underlying `updateSession` throws). -/
def markSessionCompletedStored (sessionId : String) (now : Int)
    (stored : List Session) : List Session :=
  updateSessionStored sessionId
    { status := some .completed, endTime := some (some now) } stored

/-- Per-record body of `sessions.map` in `updateSessionStatuses`
(`sessionStorage.ts`, lines 36-51).  The guard `session.duration` is JS
truthiness: it fails when the field is absent and also when it is `0`. -/
def reconcileSession (now : Int) (s : Session) : Session :=
  match s.status, s.duration with
  | .running, some d =>
    if d ≠ 0 ∧ now - s.startTime ≥ d * 1000 then
      { s with status := .completed, endTime := some (s.startTime + d * 1000) }
    else s
  | _, _ => s

/-- `updateSessionStatuses` (`sessionStorage.ts`, lines 31-57): maps the
reconciliation over the loaded sequence and saves the whole batch. -/
def updateSessionStatuses (now : Int) (sessions : List Session) :
    List Session :=
  sessions.map (reconcileSession now)

/-- The five-minute grace window of the liveness rule, in milliseconds. -/
def fiveMinutesMs : Int := 5 * 60 * 1000

/-- Per-record body of `sessions.map` in the unnamed variant's
`updateSessionStatuses` (unnamed sessionStorage variant, lines 43-73): the
duration rule first, then, for records it did not complete, the liveness
rule (probe not active and elapsed time at least five minutes, completing
with `endTime = now`). -/
def reconcileSessionLive (isFocusActive : Bool) (now : Int) (s : Session) :
    Session :=
  match s.status, s.duration with
  | .running, some d =>
    if d ≠ 0 ∧ now - s.startTime ≥ d * 1000 then
      { s with status := .completed, endTime := some (s.startTime + d * 1000) }
    else if ¬ isFocusActive ∧ now - s.startTime ≥ fiveMinutesMs then
      { s with status := .completed, endTime := some now }
    else s
  | .running, none =>
    if ¬ isFocusActive ∧ now - s.startTime ≥ fiveMinutesMs then
      { s with status := .completed, endTime := some now }
    else s
  | .completed, _ => s

/-- `updateSessionStatuses` of the unnamed sessionStorage variant
(lines 37-80): same load-map-save batch, with the liveness probe result
sampled once for the whole batch. -/
def updateSessionStatusesLive (isFocusActive : Bool) (now : Int)
    (sessions : List Session) : List Session :=
  sessions.map (reconcileSessionLive isFocusActive now)

/-- The `session.duration || 0` accumuland of `getSessionStats`
(`sessionStorage.ts`, line 132): an absent duration counts as `0`. -/
def sessionDuration (s : Session) : Int :=
  s.duration.getD 0

/-- One `forEach` step of `getSessionStats` (`sessionStorage.ts`,
lines 130-146) on the insertion-ordered group list: if a group with this
session's tag exists, accumulate into it in place; otherwise append a new
group at the end. -/
def addToGroups (s : Session) : List SessionStats → List SessionStats
  | [] => [{ tag := s.tag, totalDuration := sessionDuration s, count := 1,
             sessions := [s] }]
  | g :: gs =>
    if g.tag = s.tag then
      { g with totalDuration := g.totalDuration + sessionDuration s,
               count := g.count + 1,
               sessions := g.sessions ++ [s] } :: gs
    else
      g :: addToGroups s gs

/-- The grouping pass of `getSessionStats`: the `Map` iterates in key
insertion order, so it is an insertion-ordered association list built by a
left fold. -/
def groupByTag (sessions : List Session) : List SessionStats :=
  sessions.foldl (fun acc s => addToGroups s acc) []

/-- Stable descending insertion by `totalDuration`: the new group goes in
front of the first group it is greater than or equal to, so among equal
totals the earlier-created group stays first. -/
def insertByTotal (g : SessionStats) : List SessionStats → List SessionStats
  | [] => [g]
  | h :: t =>
    if h.totalDuration ≤ g.totalDuration then g :: h :: t
    else h :: insertByTotal g t

/-- The final `sort` of `getSessionStats` (`sessionStorage.ts`,
lines 148-150) with comparator `b.totalDuration - a.totalDuration`:
descending by `totalDuration`.  `Array.prototype.sort` is stable, and a
stable sort under a total preorder has a unique result, here realised by
stable insertion sort. -/
def sortByTotalDesc : List SessionStats → List SessionStats
  | [] => []
  | g :: gs => insertByTotal g (sortByTotalDesc gs)

/-- `getSessionStats` (`sessionStorage.ts`, lines 126-151): group the
loaded sessions by tag in first-occurrence order, then sort the groups
descending by `totalDuration`. -/
def getSessionStats (sessions : List Session) : List SessionStats :=
  sortByTotalDesc (groupByTag sessions)

/-- `removeTag` (`sessionStorage.ts`, lines 226-244): drops the name from
the stored tag registry and blanks (to the empty string) the `tag` field of
every session carrying it. -/
def removeTag (tagName : String) (st : Store) : Store :=
  { tags := st.tags.filter (fun t => t ≠ tagName)
    sessions := st.sessions.map (fun s =>
      if s.tag = tagName then { s with tag := "" } else s) }

/-- The record-level invariant of the spec's data model: `endTime` is
present if and only if `status == completed`. -/
def sessionInv (s : Session) : Prop :=
  s.endTime.isSome ↔ s.status = .completed

instance (s : Session) : Decidable (sessionInv s) := by
  unfold sessionInv; infer_instance

/-- The invariant over a whole stored collection. -/
def sessionsInv (l : List Session) : Prop :=
  ∀ s ∈ l, sessionInv s

instance (l : List Session) : Decidable (sessionsInv l) := by
  unfold sessionsInv; exact List.decidableBAll _ l

/-! Specification-side description of the grouping pass, written from the
spec's words, to be compared with `groupByTag` (which is written from the
source): group keys are the distinct tag values in order of first
occurrence, and each group holds exactly the sessions carrying its tag, in
original order, with their summed durations and their number. -/

/-- The distinct elements of a list in order of first occurrence. -/
def firstOccurrences : List String → List String
  | [] => []
  | t :: ts => t :: (firstOccurrences ts).filter (fun u => u ≠ t)

/-- The statistics group for tag `t` as the spec describes it: the sessions
carrying `t` in original order, their summed durations (absent counted 0),
and their number. -/
def groupFor (sessions : List Session) (t : String) : SessionStats :=
  { tag := t
    totalDuration := ((sessions.filter (fun s => s.tag = t)).map
      sessionDuration).sum
    count := (sessions.filter (fun s => s.tag = t)).length
    sessions := sessions.filter (fun s => s.tag = t) }

/-- The spec's description of the grouping pass output: one group per
distinct tag, in first-occurrence order. -/
def getSessionGroupsSpec (sessions : List Session) : List SessionStats :=
  (firstOccurrences (sessions.map (fun s => s.tag))).map (groupFor sessions)

/-- Update objects under which the spread merge respects the record
invariant: either a completed-with-endTime transition (as
`markSessionCompleted` sends) or an update touching neither `status` nor
`endTime`. -/
def safeUpdates (u : SessionUpdates) : Prop :=
  (u.status = some .completed ∧ ∃ t : Int, u.endTime = some (some t)) ∨
  (u.status = none ∧ u.endTime = none)

/-! Concrete records used to instantiate the theorems. -/

/-- Example record for the statistics example: tag "a", duration 100. -/
def exA : Session :=
  { id := "1", tag := "a", goal := none, categories := "c", duration := some 100, mode := "block", status := .completed, startTime := 0, endTime := some 5 }

/-- Example record for the statistics example: tag "b", duration 50. -/
def exB : Session :=
  { exA with id := "2", tag := "b", duration := some 50 }

/-- Example record for the statistics example: tag "a", duration 30. -/
def exC : Session :=
  { exA with id := "3", tag := "a", duration := some 30 }

/-- A running session with a 60-second duration started at epoch 0. -/
def sRun60 : Session :=
  { id := "r60", tag := "work", goal := none, categories := "c", duration := some 60, mode := "block", status := .running, startTime := 0, endTime := none }

/-- A running session with no duration started at epoch 0. -/
def sNoDur : Session :=
  { sRun60 with id := "nd", duration := none }

/-- A running session with duration exactly 0, started at epoch 0. -/
def sZero0 : Session :=
  { sRun60 with id := "z0", duration := some 0 }

/-- A completed session with its end time recorded. -/
def sDone : Session :=
  { sRun60 with id := "dn", duration := some 10, status := .completed, endTime := some 7 }

/-- A session tagged "x", for the tag-removal theorems. -/
def sTagX : Session :=
  { sRun60 with id := "tx", tag := "x" }

/-- A session with a blank tag, as tag removal leaves behind. -/
def sBlank : Session :=
  { sRun60 with id := "bl", tag := "", duration := some 5 }

/-- First of two sessions sharing the id "dup". -/
def sDupA : Session :=
  { sRun60 with id := "dup", tag := "first" }

/-- Second of two sessions sharing the id "dup". -/
def sDupB : Session :=
  { sRun60 with id := "dup", tag := "second" }

/-- A two-collection store used to instantiate the tag-removal theorems. -/
def st0 : Store :=
  { sessions := [sTagX, sRun60], tags := ["x", "y"] }

end FocusMetrics

namespace FocusMetrics

theorem reconcileSession_of_completed (now : Int) (s : Session)
    (h : s.status = .completed) : reconcileSession now s = s := by
  unfold reconcileSession
  split <;> simp_all

theorem reconcileSession_shape (now : Int) (s : Session) :
    reconcileSession now s = s ∨
    ∃ e : Int, s.status = .running ∧
      reconcileSession now s = { s with status := .completed, endTime := some e } := by
  unfold reconcileSession
  split
  · next hst hd =>
      split
      · next hcond => exact .inr ⟨_, hst, rfl⟩
      · exact .inl rfl
  · exact .inl rfl

end FocusMetrics

namespace FocusMetrics

theorem reconcileSessionLive_of_completed (isFocusActive : Bool) (now : Int)
    (s : Session) (h : s.status = .completed) :
    reconcileSessionLive isFocusActive now s = s := by
  unfold reconcileSessionLive
  split <;> simp_all

theorem reconcileSessionLive_shape (isFocusActive : Bool) (now : Int)
    (s : Session) :
    reconcileSessionLive isFocusActive now s = s ∨
    ∃ e : Int, s.status = .running ∧
      reconcileSessionLive isFocusActive now s =
        { s with status := .completed, endTime := some e } := by
  unfold reconcileSessionLive
  split
  · next hst hd =>
      split
      · exact .inr ⟨_, hst, rfl⟩
      · split
        · exact .inr ⟨_, hst, rfl⟩
        · exact .inl rfl
  · next hst hd =>
      split
      · exact .inr ⟨_, hst, rfl⟩
      · exact .inl rfl
  · exact .inl rfl

theorem reconcileSession_idem (now : Int) (s : Session) :
    reconcileSession now (reconcileSession now s) = reconcileSession now s := by
  rcases reconcileSession_shape now s with h | ⟨e, _, h⟩
  · rw [h]; exact h
  · rw [h]; exact reconcileSession_of_completed now _ rfl

theorem reconcileSessionLive_idem (isFocusActive : Bool) (now : Int)
    (s : Session) :
    reconcileSessionLive isFocusActive now
      (reconcileSessionLive isFocusActive now s) =
      reconcileSessionLive isFocusActive now s := by
  rcases reconcileSessionLive_shape isFocusActive now s with h | ⟨e, _, h⟩
  · rw [h]; exact h
  · rw [h]; exact reconcileSessionLive_of_completed isFocusActive now _ rfl

theorem reconcileSession_duration_done (now : Int) (s : Session) (d : Int)
    (hst : s.status = .running) (hd : s.duration = some d) (hdz : d ≠ 0)
    (helapsed : now - s.startTime ≥ d * 1000) :
    reconcileSession now s =
      { s with status := .completed, endTime := some (s.startTime + d * 1000) } := by
  unfold reconcileSession
  split
  · next hst2 hd2 =>
      rw [hd] at hd2
      cases hd2
      rw [if_pos ⟨hdz, helapsed⟩]
  · next hne => exact (hne d hst hd).elim

end FocusMetrics

namespace FocusMetrics

theorem reconcileSessionLive_stale_complete (now : Int) (s : Session)
    (hst : s.status = .running) (hd : s.duration = none)
    (h5 : now - s.startTime ≥ fiveMinutesMs) :
    reconcileSessionLive false now s =
      { s with status := .completed, endTime := some now } := by
  unfold reconcileSessionLive
  split
  · next hst2 hd2 => rw [hd] at hd2; cases hd2
  · next hst2 hd2 => rw [if_pos ⟨by simp, h5⟩]
  · next h1 h2 => rw [hst] at h2; cases h2

theorem reconcileSessionLive_fourMinutes (isFocusActive : Bool) (now : Int)
    (s : Session) (hst : s.status = .running) (hd : s.duration = none)
    (h4 : now - s.startTime = 4 * 60 * 1000) :
    reconcileSessionLive isFocusActive now s = s := by
  unfold reconcileSessionLive
  split
  · next hst2 hd2 => rw [hd] at hd2; cases hd2
  · next hst2 hd2 =>
      rw [if_neg]
      rintro ⟨-, hge⟩
      rw [h4] at hge
      norm_num [fiveMinutesMs] at hge
  · next h1 h2 => rfl

theorem reconcileSession_fields (now : Int) (s : Session) :
    (reconcileSession now s).id = s.id ∧
    (reconcileSession now s).tag = s.tag ∧
    (reconcileSession now s).goal = s.goal ∧
    (reconcileSession now s).categories = s.categories ∧
    (reconcileSession now s).duration = s.duration ∧
    (reconcileSession now s).mode = s.mode ∧
    (reconcileSession now s).startTime = s.startTime := by
  rcases reconcileSession_shape now s with h | ⟨e, -, h⟩ <;> rw [h] <;> simp

theorem reconcileSessionLive_fields (isFocusActive : Bool) (now : Int)
    (s : Session) :
    (reconcileSessionLive isFocusActive now s).id = s.id ∧
    (reconcileSessionLive isFocusActive now s).tag = s.tag ∧
    (reconcileSessionLive isFocusActive now s).goal = s.goal ∧
    (reconcileSessionLive isFocusActive now s).categories = s.categories ∧
    (reconcileSessionLive isFocusActive now s).duration = s.duration ∧
    (reconcileSessionLive isFocusActive now s).mode = s.mode ∧
    (reconcileSessionLive isFocusActive now s).startTime = s.startTime := by
  rcases reconcileSessionLive_shape isFocusActive now s with h | ⟨e, -, h⟩ <;>
    rw [h] <;> simp

end FocusMetrics

namespace FocusMetrics

/-- Claim C3: updateSessionStatuses is idempotent on the stored collection,
for a fixed clock and liveness result, in both variants of the module. -/
theorem updateSessionStatuses_idempotent (isFocusActive : Bool) (now : Int)
    (l : List Session) :
    updateSessionStatuses now (updateSessionStatuses now l) =
      updateSessionStatuses now l ∧
    updateSessionStatusesLive isFocusActive now
      (updateSessionStatusesLive isFocusActive now l) =
      updateSessionStatusesLive isFocusActive now l := by
  constructor
  · simp only [updateSessionStatuses, List.map_map]
    exact List.map_congr_left fun s _ => reconcileSession_idem now s
  · simp only [updateSessionStatusesLive, List.map_map]
    exact List.map_congr_left fun s _ =>
      reconcileSessionLive_idem isFocusActive now s

/-- Claim C6 (amended: the duration guard is JS-truthy, so it requires a
nonzero duration): after updateSessionStatuses, every running session with
a nonzero finite duration whose elapsed time is at least duration*1000
milliseconds is completed with endTime exactly startTime + duration*1000. -/
theorem updateSessionStatuses_duration_completion (now : Int)
    (l : List Session) (i : Nat) (s : Session) (d : Int)
    (hs : l[i]? = some s) (hst : s.status = .running)
    (hd : s.duration = some d) (hdz : d ≠ 0)
    (helapsed : now - s.startTime ≥ d * 1000) :
    (updateSessionStatuses now l)[i]? =
      some { s with status := .completed,
                    endTime := some (s.startTime + d * 1000) } := by
  unfold updateSessionStatuses
  rw [List.getElem?_map, hs, Option.map_some']
  rw [reconcileSession_duration_done now s d hst hd hdz helapsed]

/-- Claim C6, witness: a 60-second session started at 0, reconciled at
61000 ms, ends at exactly 60000. -/
theorem updateSessionStatuses_duration_completion_witness :
    (updateSessionStatuses 61000 [sRun60])[0]? =
      some { sRun60 with status := .completed,
                         endTime := some (sRun60.startTime + 60 * 1000) } :=
  updateSessionStatuses_duration_completion 61000 [sRun60] 0 sRun60 60
    (by decide) (by decide) (by decide) (by decide) (by decide)

/-- Claim C6, counterexample to the claim as stated: a running session with
duration exactly 0 satisfies the claim's hypotheses (finite duration,
elapsed time at least duration*1000) at time 10, yet updateSessionStatuses
leaves it running with no endTime, because the JS guard
`session.duration` is falsy at 0. -/
theorem updateSessionStatuses_durationZero_cex :
    sZero0.status = .running ∧ sZero0.duration = some 0 ∧
    (10 : Int) - sZero0.startTime ≥ 0 * 1000 ∧
    updateSessionStatuses 10 [sZero0] = [sZero0] ∧
    sZero0.endTime = none := by decide

/-- Claim C2: under the unnamed variant's updateSessionStatuses, a running
session with no duration, elapsed time at least five minutes and an
inactive liveness probe is completed with endTime = now; at an elapsed time
of exactly four minutes it is returned unchanged whatever the probe says. -/
theorem updateSessionStatusesLive_liveness (now : Int) (l : List Session)
    (i : Nat) (s : Session) (hs : l[i]? = some s)
    (hst : s.status = .running) (hd : s.duration = none) :
    (now - s.startTime ≥ fiveMinutesMs →
      (updateSessionStatusesLive false now l)[i]? =
        some { s with status := .completed, endTime := some now }) ∧
    (∀ isFocusActive : Bool, now - s.startTime = 4 * 60 * 1000 →
      (updateSessionStatusesLive isFocusActive now l)[i]? = some s) := by
  constructor
  · intro h5
    unfold updateSessionStatusesLive
    rw [List.getElem?_map, hs, Option.map_some']
    rw [reconcileSessionLive_stale_complete now s hst hd h5]
  · intro isFocusActive h4
    unfold updateSessionStatusesLive
    rw [List.getElem?_map, hs, Option.map_some']
    rw [reconcileSessionLive_fourMinutes isFocusActive now s hst hd h4]

/-- Claim C2, witness: a no-duration session started at 0, with the probe
inactive, completes at 300000 ms with endTime 300000, and is untouched at
240000 ms even with the probe inactive. -/
theorem updateSessionStatusesLive_liveness_witness :
    ((updateSessionStatusesLive false 300000 [sNoDur])[0]? =
      some { sNoDur with status := .completed, endTime := some 300000 }) ∧
    ((updateSessionStatusesLive false 240000 [sNoDur])[0]? = some sNoDur) := by
  constructor
  · exact (updateSessionStatusesLive_liveness 300000 [sNoDur] 0 sNoDur
      (by decide) (by decide) (by decide)).1 (by decide)
  · exact (updateSessionStatusesLive_liveness 240000 [sNoDur] 0 sNoDur
      (by decide) (by decide) (by decide)).2 false (by decide)

/-- Claim C8: both variants of updateSessionStatuses preserve the length
and order of the stored sequence, leave every field other than status and
endTime unchanged, and return already-completed sessions verbatim. -/
theorem updateSessionStatuses_frame (isFocusActive : Bool) (now : Int)
    (l : List Session) (i : Nat) (s : Session) (hs : l[i]? = some s) :
    (updateSessionStatuses now l).length = l.length ∧
    (updateSessionStatusesLive isFocusActive now l).length = l.length ∧
    (∃ s1, (updateSessionStatuses now l)[i]? = some s1 ∧
      s1.id = s.id ∧ s1.tag = s.tag ∧ s1.goal = s.goal ∧
      s1.categories = s.categories ∧ s1.duration = s.duration ∧
      s1.mode = s.mode ∧ s1.startTime = s.startTime ∧
      (s.status = .completed → s1 = s)) ∧
    (∃ s2, (updateSessionStatusesLive isFocusActive now l)[i]? = some s2 ∧
      s2.id = s.id ∧ s2.tag = s.tag ∧ s2.goal = s.goal ∧
      s2.categories = s.categories ∧ s2.duration = s.duration ∧
      s2.mode = s.mode ∧ s2.startTime = s.startTime ∧
      (s.status = .completed → s2 = s)) := by
  refine ⟨by simp [updateSessionStatuses], by simp [updateSessionStatusesLive],
    ⟨reconcileSession now s, ?_, ?_⟩,
    ⟨reconcileSessionLive isFocusActive now s, ?_, ?_⟩⟩
  · unfold updateSessionStatuses
    rw [List.getElem?_map, hs, Option.map_some']
  · obtain ⟨h1, h2, h3, h4, h5, h6, h7⟩ := reconcileSession_fields now s
    exact ⟨h1, h2, h3, h4, h5, h6, h7,
      fun hc => reconcileSession_of_completed now s hc⟩
  · unfold updateSessionStatusesLive
    rw [List.getElem?_map, hs, Option.map_some']
  · obtain ⟨h1, h2, h3, h4, h5, h6, h7⟩ :=
      reconcileSessionLive_fields isFocusActive now s
    exact ⟨h1, h2, h3, h4, h5, h6, h7,
      fun hc => reconcileSessionLive_of_completed isFocusActive now s hc⟩

/-- Claim C8, witness: the frame facts at a concrete completed session. -/
theorem updateSessionStatuses_frame_witness :
    (updateSessionStatuses 99 [sDone]).length = [sDone].length ∧
    (updateSessionStatusesLive true 99 [sDone]).length = [sDone].length ∧
    (∃ s1, (updateSessionStatuses 99 [sDone])[0]? = some s1 ∧
      s1.id = sDone.id ∧ s1.tag = sDone.tag ∧ s1.goal = sDone.goal ∧
      s1.categories = sDone.categories ∧ s1.duration = sDone.duration ∧
      s1.mode = sDone.mode ∧ s1.startTime = sDone.startTime ∧
      (sDone.status = .completed → s1 = sDone)) ∧
    (∃ s2, (updateSessionStatusesLive true 99 [sDone])[0]? = some s2 ∧
      s2.id = sDone.id ∧ s2.tag = sDone.tag ∧ s2.goal = sDone.goal ∧
      s2.categories = sDone.categories ∧ s2.duration = sDone.duration ∧
      s2.mode = sDone.mode ∧ s2.startTime = sDone.startTime ∧
      (sDone.status = .completed → s2 = sDone)) :=
  updateSessionStatuses_frame true 99 [sDone] 0 sDone (by decide)

end FocusMetrics

namespace FocusMetrics

/-- Claim C5: updateSession on an id absent from the stored collection
throws the not-found error, and the stored collection is unchanged
afterward. -/
theorem updateSession_notFound (sessionId : String) (u : SessionUpdates)
    (l : List Session) (h : ∀ s ∈ l, s.id ≠ sessionId) :
    updateSession sessionId u l =
      .error ("Session with id " ++ sessionId ++ " not found") ∧
    updateSessionStored sessionId u l = l := by
  have herr : updateSession sessionId u l =
      .error ("Session with id " ++ sessionId ++ " not found") := by
    induction l with
    | nil => rfl
    | cons s rest ih =>
        unfold updateSession
        rw [if_neg (h s (List.mem_cons_self s rest))]
        rw [ih fun x hx => h x (List.mem_cons_of_mem s hx)]
        rfl
  exact ⟨herr, by unfold updateSessionStored; rw [herr]⟩

/-- Claim C5, witness: updating an absent id over a one-session store. -/
theorem updateSession_notFound_witness :
    updateSession "absent" { tag := some "t" } [sRun60] =
      .error ("Session with id " ++ "absent" ++ " not found") ∧
    updateSessionStored "absent" { tag := some "t" } [sRun60] = [sRun60] :=
  updateSession_notFound "absent" { tag := some "t" } [sRun60] (by decide)

/-- Claim C10: when several stored sessions share an id, removeSession
drops every one of them (and nothing else), while updateSession merges the
update into the first matching session only, leaving the later duplicates
as they were. -/
theorem duplicate_id_operations (sessionId : String) (u : SessionUpdates)
    (l1 l2 : List Session) (s : Session) (h1 : ∀ x ∈ l1, x.id ≠ sessionId)
    (hs : s.id = sessionId) :
    removeSession sessionId (l1 ++ s :: l2) =
      l1 ++ removeSession sessionId l2 ∧
    (∀ x ∈ removeSession sessionId (l1 ++ s :: l2), x.id ≠ sessionId) ∧
    (∀ x ∈ l1 ++ s :: l2, x.id ≠ sessionId →
      x ∈ removeSession sessionId (l1 ++ s :: l2)) ∧
    updateSession sessionId u (l1 ++ s :: l2) =
      .ok (l1 ++ mergeSession s u :: l2) := by
  refine ⟨?_, ?_, ?_, ?_⟩
  · unfold removeSession
    rw [List.filter_append]
    congr 1
    · exact List.filter_eq_self.mpr fun x hx => by
        simpa using h1 x hx
    · rw [List.filter_cons_of_neg (by simpa using hs)]
  · intro x hx
    unfold removeSession at hx
    simpa using (List.mem_filter.mp hx).2
  · intro x hx hne
    unfold removeSession
    exact List.mem_filter.mpr ⟨hx, by simpa using hne⟩
  · induction l1 with
    | nil =>
        simp only [List.nil_append]
        unfold updateSession
        rw [if_pos hs]
    | cons a rest ih =>
        simp only [List.cons_append]
        unfold updateSession
        rw [if_neg (h1 a (List.mem_cons_self a rest))]
        rw [ih fun x hx => h1 x (List.mem_cons_of_mem a hx)]
        rfl

/-- Claim C10, witness: two sessions share the id "dup" behind an
unrelated session; removal drops both, update touches only the first. -/
theorem duplicate_id_operations_witness :
    removeSession "dup" ([sRun60] ++ sDupA :: [sDupB]) =
      [sRun60] ++ removeSession "dup" [sDupB] ∧
    (∀ x ∈ removeSession "dup" ([sRun60] ++ sDupA :: [sDupB]),
      x.id ≠ "dup") ∧
    (∀ x ∈ [sRun60] ++ sDupA :: [sDupB], x.id ≠ "dup" →
      x ∈ removeSession "dup" ([sRun60] ++ sDupA :: [sDupB])) ∧
    updateSession "dup" { goal := some (some "g") }
        ([sRun60] ++ sDupA :: [sDupB]) =
      .ok ([sRun60] ++ mergeSession sDupA { goal := some (some "g") } :: [sDupB]) :=
  duplicate_id_operations "dup" { goal := some (some "g") } [sRun60] [sDupB]
    sDupA (by decide) (by decide)

/-- Claim C7: after removeTag x, the stored registry no longer contains x,
no session is deleted, every session keeps its id and every field other
than tag, sessions previously tagged x are blanked to the empty string,
and other sessions keep their tag. -/
theorem removeTag_effect (x : String) (st : Store) (i : Nat) (s : Session)
    (hs : st.sessions[i]? = some s) :
    x ∉ (removeTag x st).tags ∧
    (removeTag x st).sessions.length = st.sessions.length ∧
    (∃ s1, (removeTag x st).sessions[i]? = some s1 ∧
      s1.id = s.id ∧ s1.goal = s.goal ∧ s1.categories = s.categories ∧
      s1.duration = s.duration ∧ s1.mode = s.mode ∧ s1.status = s.status ∧
      s1.startTime = s.startTime ∧ s1.endTime = s.endTime ∧
      (s.tag = x → s1.tag = "") ∧ (s.tag ≠ x → s1.tag = s.tag)) := by
  refine ⟨?_, by simp [removeTag], ?_⟩
  · intro hmem
    have := (List.mem_filter.mp hmem).2
    simp at this
  · refine ⟨if s.tag = x then { s with tag := "" } else s, ?_, ?_⟩
    · show (st.sessions.map _)[i]? = _
      rw [List.getElem?_map, hs, Option.map_some']
    · by_cases htag : s.tag = x
      · rw [if_pos htag]
        exact ⟨rfl, rfl, rfl, rfl, rfl, rfl, rfl, rfl,
          fun _ => rfl, fun hne => absurd htag hne⟩
      · rw [if_neg htag]
        exact ⟨rfl, rfl, rfl, rfl, rfl, rfl, rfl, rfl,
          fun heq => absurd heq htag, fun _ => rfl⟩

/-- Claim C7, witness: removing the tag "x" from a store holding one
session tagged "x" and one tagged otherwise. -/
theorem removeTag_effect_witness :
    "x" ∉ (removeTag "x" st0).tags ∧
    (removeTag "x" st0).sessions.length = st0.sessions.length ∧
    (∃ s1, (removeTag "x" st0).sessions[0]? = some s1 ∧
      s1.id = sTagX.id ∧ s1.goal = sTagX.goal ∧
      s1.categories = sTagX.categories ∧ s1.duration = sTagX.duration ∧
      s1.mode = sTagX.mode ∧ s1.status = sTagX.status ∧
      s1.startTime = sTagX.startTime ∧ s1.endTime = sTagX.endTime ∧
      (sTagX.tag = "x" → s1.tag = "") ∧ (sTagX.tag ≠ "x" → s1.tag = sTagX.tag)) :=
  removeTag_effect "x" st0 0 sTagX (by decide)

end FocusMetrics

namespace FocusMetrics

theorem mergeSession_inv (s : Session) (u : SessionUpdates)
    (hs : sessionInv s) (hu : safeUpdates u) :
    sessionInv (mergeSession s u) := by
  rcases hu with ⟨hstat, t, hend⟩ | ⟨hstat, hend⟩
  · unfold sessionInv mergeSession
    rw [hstat, hend]
    simp
  · unfold sessionInv mergeSession
    rw [hstat, hend]
    simpa [sessionInv] using hs

theorem updateSession_ok_inv (sessionId : String) (u : SessionUpdates)
    (l l' : List Session) (hok : updateSession sessionId u l = .ok l')
    (hinv : sessionsInv l) (hu : safeUpdates u) : sessionsInv l' := by
  induction l generalizing l' with
  | nil => cases hok
  | cons s rest ih =>
      unfold updateSession at hok
      by_cases hid : s.id = sessionId
      · rw [if_pos hid] at hok
        cases hok
        intro x hx
        rcases List.mem_cons.mp hx with hx | hx
        · subst hx
          exact mergeSession_inv s u (hinv s (List.mem_cons_self s rest)) hu
        · exact hinv x (List.mem_cons_of_mem s hx)
      · rw [if_neg hid] at hok
        cases hrec : updateSession sessionId u rest with
        | error e => rw [hrec] at hok; cases hok
        | ok rest' =>
            rw [hrec] at hok
            cases hok
            intro x hx
            rcases List.mem_cons.mp hx with hx | hx
            · subst hx; exact hinv x (List.mem_cons_self x rest)
            · exact ih rest' hrec
                (fun y hy => hinv y (List.mem_cons_of_mem s hy)) x hx

theorem reconcileSession_inv (now : Int) (s : Session) (h : sessionInv s) :
    sessionInv (reconcileSession now s) := by
  rcases reconcileSession_shape now s with heq | ⟨e, -, heq⟩
  · rw [heq]; exact h
  · rw [heq]; unfold sessionInv; simp

theorem reconcileSessionLive_inv (isFocusActive : Bool) (now : Int)
    (s : Session) (h : sessionInv s) :
    sessionInv (reconcileSessionLive isFocusActive now s) := by
  rcases reconcileSessionLive_shape isFocusActive now s with heq | ⟨e, -, heq⟩
  · rw [heq]; exact h
  · rw [heq]; unfold sessionInv; simp

/-- Claim C1 (amended: updateSession preserves the invariant for updates
that either set status to completed together with an endTime — as
markSessionCompleted does — or touch neither status nor endTime, and
addSession preserves it when the inserted record satisfies it; an
arbitrary partial update need not preserve it): the endTime-iff-completed
invariant is preserved by the Session Service operations. -/
theorem sessionsInv_preserved (sessionId x : String) (u : SessionUpdates)
    (snew : Session) (st : Store) (now : Int) (isFocusActive : Bool)
    (hinv : sessionsInv st.sessions) (hnew : sessionInv snew)
    (hu : safeUpdates u) :
    sessionsInv (addSession snew st.sessions) ∧
    sessionsInv (updateSessionStored sessionId u st.sessions) ∧
    sessionsInv (removeSession sessionId st.sessions) ∧
    sessionsInv (markSessionCompletedStored sessionId now st.sessions) ∧
    sessionsInv (updateSessionStatuses now st.sessions) ∧
    sessionsInv (updateSessionStatusesLive isFocusActive now st.sessions) ∧
    sessionsInv (removeTag x st).sessions := by
  refine ⟨?_, ?_, ?_, ?_, ?_, ?_, ?_⟩
  · intro s hs
    rcases List.mem_append.mp hs with hs | hs
    · exact hinv s hs
    · rw [List.mem_singleton.mp hs]; exact hnew
  · unfold updateSessionStored
    cases hrec : updateSession sessionId u st.sessions with
    | error e => exact hinv
    | ok l' => exact updateSession_ok_inv sessionId u st.sessions l' hrec hinv hu
  · intro s hs
    exact hinv s (List.mem_of_mem_filter hs)
  · unfold markSessionCompletedStored updateSessionStored
    cases hrec : updateSession sessionId
        { status := some .completed, endTime := some (some now) }
        st.sessions with
    | error e => exact hinv
    | ok l' =>
        exact updateSession_ok_inv sessionId _ st.sessions l' hrec hinv
          (Or.inl ⟨rfl, now, rfl⟩)
  · intro s hs
    rcases List.mem_map.mp hs with ⟨s0, hs0, heq⟩
    rw [← heq]
    exact reconcileSession_inv now s0 (hinv s0 hs0)
  · intro s hs
    rcases List.mem_map.mp hs with ⟨s0, hs0, heq⟩
    rw [← heq]
    exact reconcileSessionLive_inv isFocusActive now s0 (hinv s0 hs0)
  · intro s hs
    rcases List.mem_map.mp hs with ⟨s0, hs0, heq⟩
    rw [← heq]
    have h0 := hinv s0 hs0
    by_cases htag : s0.tag = x
    · rw [if_pos htag]
      simpa [sessionInv] using h0
    · rw [if_neg htag]
      exact h0

/-- Claim C1, witness: the preserved operations at a concrete store
satisfying the invariant. -/
theorem sessionsInv_preserved_witness :
    sessionsInv (addSession sDone st0.sessions) ∧
    sessionsInv (updateSessionStored "tx" { tag := some "t2" } st0.sessions) ∧
    sessionsInv (removeSession "tx" st0.sessions) ∧
    sessionsInv (markSessionCompletedStored "tx" 9 st0.sessions) ∧
    sessionsInv (updateSessionStatuses 9 st0.sessions) ∧
    sessionsInv (updateSessionStatusesLive false 9 st0.sessions) ∧
    sessionsInv (removeTag "x" st0).sessions :=
  sessionsInv_preserved "tx" "x" { tag := some "t2" } sDone st0 9 false
    (by decide) (by decide) (Or.inr ⟨rfl, rfl⟩)

/-- Claim C1, counterexample to the claim as stated: the stored collection
holding one running session satisfies the invariant, yet updateSession
with the partial field set carrying only an endTime leaves a running
session with an endTime present, so the invariant is not preserved by
updateSession with an arbitrary partial field set. -/
theorem sessionsInv_update_cex :
    sessionsInv [sRun60] ∧
    ¬ sessionsInv
        (updateSessionStored "r60" { endTime := some (some 5) } [sRun60]) := by
  decide

end FocusMetrics

namespace FocusMetrics

theorem mem_firstOccurrences (t : String) :
    ∀ ts : List String, t ∈ firstOccurrences ts ↔ t ∈ ts := by
  intro ts
  induction ts with
  | nil => rfl
  | cons u us ih =>
      unfold firstOccurrences
      constructor
      · intro h
        rcases List.mem_cons.mp h with h | h
        · exact h ▸ List.mem_cons_self u us
        · exact List.mem_cons_of_mem u (ih.mp (List.mem_of_mem_filter h))
      · intro h
        rcases List.mem_cons.mp h with h | h
        · exact h ▸ List.mem_cons_self u _
        · by_cases htu : t = u
          · exact htu ▸ List.mem_cons_self u _
          · exact List.mem_cons_of_mem u
              (List.mem_filter.mpr ⟨ih.mpr h, by simpa using htu⟩)

theorem nodup_firstOccurrences :
    ∀ ts : List String, (firstOccurrences ts).Nodup := by
  intro ts
  induction ts with
  | nil => exact List.nodup_nil
  | cons u us ih =>
      unfold firstOccurrences
      refine List.Nodup.cons ?_ (List.Nodup.filter _ ih)
      intro hmem
      have := (List.mem_filter.mp hmem).2
      simp at this

theorem firstOccurrences_append (ts : List String) (t : String) :
    firstOccurrences (ts ++ [t]) =
      if t ∈ ts then firstOccurrences ts else firstOccurrences ts ++ [t] := by
  induction ts with
  | nil => simp [firstOccurrences]
  | cons u us ih =>
      simp only [List.cons_append]
      unfold firstOccurrences
      rw [ih]
      by_cases htus : t ∈ us
      · rw [if_pos htus, if_pos (List.mem_cons_of_mem u htus)]
      · rw [if_neg htus]
        by_cases htu : t = u
        · rw [if_pos (htu ▸ List.mem_cons_self u us)]
          rw [List.filter_append]
          simp [htu]
        · rw [if_neg (by simp [htu, htus])]
          rw [List.filter_append]
          simp [htu]

end FocusMetrics

namespace FocusMetrics

theorem groupFor_append_of_ne (l : List Session) (s : Session) (t : String)
    (h : s.tag ≠ t) : groupFor (l ++ [s]) t = groupFor l t := by
  unfold groupFor
  rw [List.filter_append]
  rw [List.filter_cons_of_neg (by simpa using h)]
  simp

theorem groupFor_append_of_eq (l : List Session) (s : Session) (t : String)
    (h : s.tag = t) :
    groupFor (l ++ [s]) t =
      { groupFor l t with
        totalDuration := (groupFor l t).totalDuration + sessionDuration s
        count := (groupFor l t).count + 1
        sessions := (groupFor l t).sessions ++ [s] } := by
  unfold groupFor
  rw [List.filter_append]
  rw [List.filter_cons_of_pos (by simpa using h)]
  simp

theorem groupFor_of_not_mem (l : List Session) (s : Session)
    (h : s.tag ∉ l.map (fun x => x.tag)) :
    groupFor (l ++ [s]) s.tag =
      { tag := s.tag, totalDuration := sessionDuration s, count := 1,
        sessions := [s] } := by
  have hfil : l.filter (fun x => x.tag = s.tag) = [] := by
    rw [List.filter_eq_nil_iff]
    intro x hx
    simp only [decide_eq_true_eq]
    intro hxe
    exact h (List.mem_map.mpr ⟨x, hx, hxe⟩)
  unfold groupFor
  rw [List.filter_append, hfil]
  simp

theorem addToGroups_map_of_mem (l : List Session) (s : Session) :
    ∀ us : List String, s.tag ∈ us → us.Nodup →
      addToGroups s (us.map (groupFor l)) =
        us.map (groupFor (l ++ [s])) := by
  intro us
  induction us with
  | nil => intro h; cases h
  | cons u us' ih =>
      intro hmem hnd
      simp only [List.map_cons]
      unfold addToGroups
      by_cases hu : u = s.tag
      · rw [if_pos (show (groupFor l u).tag = s.tag from hu)]
        have htail : us'.map (groupFor l) = us'.map (groupFor (l ++ [s])) := by
          refine List.map_congr_left fun t ht => ?_
          refine (groupFor_append_of_ne l s t ?_).symm
          intro he
          exact (List.nodup_cons.mp hnd).1 (by rw [hu, he]; exact ht)
        rw [htail]
        have hhead := groupFor_append_of_eq l s u hu.symm
        rw [hhead]
      · rw [if_neg (show ¬ (groupFor l u).tag = s.tag from hu)]
        have hmem' : s.tag ∈ us' := by
          rcases List.mem_cons.mp hmem with h | h
          · exact absurd h.symm hu
          · exact h
        rw [ih hmem' (List.nodup_cons.mp hnd).2]
        rw [groupFor_append_of_ne l s u fun he => hu he.symm]

theorem addToGroups_map_of_not_mem (l : List Session) (s : Session) :
    ∀ us : List String, s.tag ∉ us →
      addToGroups s (us.map (groupFor l)) =
        us.map (groupFor l) ++
          [{ tag := s.tag, totalDuration := sessionDuration s, count := 1,
             sessions := [s] }] := by
  intro us
  induction us with
  | nil => intro _; rfl
  | cons u us' ih =>
      intro hmem
      simp only [List.map_cons]
      unfold addToGroups
      rw [if_neg (show ¬ (groupFor l u).tag = s.tag from
        fun he => hmem (he ▸ List.mem_cons_self u us'))]
      rw [ih fun h => hmem (List.mem_cons_of_mem u h)]
      rfl

theorem groupByTag_eq_spec (l : List Session) :
    groupByTag l = getSessionGroupsSpec l := by
  induction l using List.reverseRecOn with
  | nil => rfl
  | append_singleton l s ih =>
      have hfold : groupByTag (l ++ [s]) = addToGroups s (groupByTag l) := by
        unfold groupByTag
        rw [List.foldl_append]
        rfl
      rw [hfold, ih]
      unfold getSessionGroupsSpec
      simp only [List.map_append, List.map_cons, List.map_nil]
      rw [firstOccurrences_append]
      by_cases hmem : s.tag ∈ l.map (fun x => x.tag)
      · rw [if_pos hmem]
        exact addToGroups_map_of_mem l s _
          ((mem_firstOccurrences _ _).mpr hmem) (nodup_firstOccurrences _)
      · rw [if_neg hmem]
        rw [addToGroups_map_of_not_mem l s _
          (fun h => hmem ((mem_firstOccurrences _ _).mp h))]
        rw [List.map_append]
        congr 1
        · exact (List.map_congr_left fun t ht =>
            (groupFor_append_of_ne l s t fun he =>
              hmem (he ▸ (mem_firstOccurrences _ _).mp ht)).symm)
        · simp only [List.map_cons, List.map_nil]
          rw [groupFor_of_not_mem l s hmem]

end FocusMetrics

namespace FocusMetrics

theorem mem_insertByTotal (x g : SessionStats) :
    ∀ l : List SessionStats, x ∈ insertByTotal g l ↔ x = g ∨ x ∈ l := by
  intro l
  induction l with
  | nil => simp [insertByTotal]
  | cons h t ih =>
      unfold insertByTotal
      by_cases hc : h.totalDuration ≤ g.totalDuration
      · rw [if_pos hc]
        simp [List.mem_cons]
      · rw [if_neg hc]
        simp only [List.mem_cons, ih]
        tauto

theorem pairwise_insertByTotal (g : SessionStats) :
    ∀ l : List SessionStats,
      List.Pairwise (fun a b => b.totalDuration ≤ a.totalDuration) l →
      List.Pairwise (fun a b => b.totalDuration ≤ a.totalDuration)
        (insertByTotal g l) := by
  intro l
  induction l with
  | nil => intro _; simp [insertByTotal]
  | cons h t ih =>
      intro hp
      unfold insertByTotal
      by_cases hc : h.totalDuration ≤ g.totalDuration
      · rw [if_pos hc]
        refine List.Pairwise.cons ?_ hp
        intro x hx
        rcases List.mem_cons.mp hx with hx | hx
        · exact hx ▸ hc
        · exact le_trans ((List.pairwise_cons.mp hp).1 x hx) hc
      · rw [if_neg hc]
        rcases List.pairwise_cons.mp hp with ⟨hh, ht⟩
        refine List.Pairwise.cons ?_ (ih ht)
        intro x hx
        rcases (mem_insertByTotal x g t).mp hx with hx | hx
        · exact hx ▸ le_of_not_le hc
        · exact hh x hx

theorem pairwise_sortByTotalDesc :
    ∀ l : List SessionStats,
      List.Pairwise (fun a b => b.totalDuration ≤ a.totalDuration)
        (sortByTotalDesc l) := by
  intro l
  induction l with
  | nil => simp [sortByTotalDesc]
  | cons g t ih => exact pairwise_insertByTotal g _ ih

theorem mem_sortByTotalDesc (x : SessionStats) :
    ∀ l : List SessionStats, x ∈ sortByTotalDesc l ↔ x ∈ l := by
  intro l
  induction l with
  | nil => rfl
  | cons g t ih =>
      unfold sortByTotalDesc
      rw [mem_insertByTotal, ih, List.mem_cons]

theorem filter_insertByTotal (g : SessionStats) (d : Int) :
    ∀ l : List SessionStats,
      (insertByTotal g l).filter (fun x => x.totalDuration = d) =
        if g.totalDuration = d then
          g :: l.filter (fun x => x.totalDuration = d)
        else l.filter (fun x => x.totalDuration = d) := by
  intro l
  induction l with
  | nil =>
      unfold insertByTotal
      by_cases hg : g.totalDuration = d
      · rw [if_pos hg, List.filter_cons_of_pos (by simpa using hg),
          List.filter_nil]
      · rw [if_neg hg, List.filter_cons_of_neg (by simpa using hg),
          List.filter_nil]
  | cons h t ih =>
      unfold insertByTotal
      by_cases hc : h.totalDuration ≤ g.totalDuration
      · rw [if_pos hc]
        by_cases hg : g.totalDuration = d
        · rw [List.filter_cons_of_pos (by simpa using hg), if_pos hg]
        · rw [List.filter_cons_of_neg (by simpa using hg), if_neg hg]
      · rw [if_neg hc]
        by_cases hh : h.totalDuration = d
        · have hg : ¬ g.totalDuration = d := by
            intro hgd
            rw [hgd, ← hh] at hc
            exact hc le_rfl
          rw [List.filter_cons_of_pos (by simpa using hh),
            List.filter_cons_of_pos (by simpa using hh), ih]
          simp [hg]
        · rw [List.filter_cons_of_neg (by simpa using hh),
            List.filter_cons_of_neg (by simpa using hh), ih]

theorem filter_sortByTotalDesc (d : Int) :
    ∀ l : List SessionStats,
      (sortByTotalDesc l).filter (fun x => x.totalDuration = d) =
        l.filter (fun x => x.totalDuration = d) := by
  intro l
  induction l with
  | nil => rfl
  | cons g t ih =>
      unfold sortByTotalDesc
      rw [filter_insertByTotal]
      by_cases hg : g.totalDuration = d
      · rw [if_pos hg, ih, List.filter_cons_of_pos (by simpa using hg)]
      · rw [if_neg hg, ih, List.filter_cons_of_neg (by simpa using hg)]

end FocusMetrics

namespace FocusMetrics

/-- Claim C4: getSessionStats is the stable descending-by-totalDuration
sort of the spec-described grouping (groups keyed by exact tag value in
first-occurrence order, per-group sessions in original order, durations
summed with absent as 0, sessions counted); sortedness and tie stability
are stated explicitly, and the spec's worked example evaluates as given. -/
theorem getSessionStats_spec (l : List Session) (d : Int) :
    getSessionStats l = sortByTotalDesc (getSessionGroupsSpec l) ∧
    List.Pairwise (fun a b => b.totalDuration ≤ a.totalDuration)
      (getSessionStats l) ∧
    (getSessionStats l).filter (fun g => g.totalDuration = d) =
      (getSessionGroupsSpec l).filter (fun g => g.totalDuration = d) ∧
    getSessionStats [exA, exB, exC] =
      [{ tag := "a", totalDuration := 130, count := 2, sessions := [exA, exC] },
       { tag := "b", totalDuration := 50, count := 1, sessions := [exB] }] := by
  refine ⟨?_, ?_, ?_, by decide⟩
  · unfold getSessionStats
    rw [groupByTag_eq_spec]
  · exact pairwise_sortByTotalDesc _
  · unfold getSessionStats
    rw [filter_sortByTotalDesc, groupByTag_eq_spec]

/-- Claim C9: a session with the empty-string tag is counted by
getSessionStats in an ordinary group whose tag is the empty string,
holding exactly the blank-tagged sessions. -/
theorem getSessionStats_blankTag (l : List Session) (s : Session)
    (hs : s ∈ l) (htag : s.tag = "") :
    ∃ g ∈ getSessionStats l, g.tag = "" ∧ s ∈ g.sessions ∧
      g.sessions = l.filter (fun x => x.tag = "") ∧
      g.count = (l.filter (fun x => x.tag = "")).length ∧
      g.totalDuration =
        ((l.filter (fun x => x.tag = "")).map sessionDuration).sum := by
  refine ⟨groupFor l "", ?_, rfl, ?_, rfl, rfl, rfl⟩
  · unfold getSessionStats
    rw [mem_sortByTotalDesc, groupByTag_eq_spec]
    unfold getSessionGroupsSpec
    refine List.mem_map.mpr ⟨"", ?_, rfl⟩
    exact (mem_firstOccurrences _ _).mpr (List.mem_map.mpr ⟨s, hs, htag⟩)
  · exact List.mem_filter.mpr ⟨hs, by simp [htag]⟩

/-- Claim C9, witness: a concrete collection holding one blank-tagged
session. -/
theorem getSessionStats_blankTag_witness :
    ∃ g ∈ getSessionStats [sBlank, sRun60], g.tag = "" ∧
      sBlank ∈ g.sessions ∧
      g.sessions = [sBlank, sRun60].filter (fun x => x.tag = "") ∧
      g.count = ([sBlank, sRun60].filter (fun x => x.tag = "")).length ∧
      g.totalDuration =
        (([sBlank, sRun60].filter (fun x => x.tag = "")).map
          sessionDuration).sum :=
  getSessionStats_blankTag [sBlank, sRun60] sBlank (by decide) (by decide)

end FocusMetrics
